import Mathlib

/-!
Verification of the gRPC invocation core of `resonance` (Tauri commands in
`src-tauri/src/commands/grpc_reflection.rs` and `grpc_proto.rs`), shallowly
embedded in Lean 4.  Rust strings are modelled by Lean `String` (a list of
characters); the position-based Rust `str` operations used by the source
(`trim`, `starts_with`, `split`) are re-implemented over `List Char` so that
everything is executable and kernel-reducible.  Asynchronous I/O (channel
construction, the reflection stream, the unary call) is modelled by passing
the environment's behaviour in explicitly: the reflection server is a
function from request string to returned file descriptors, the unary call
outcome is a value of a sum type, and elapsed time is an explicit number of
milliseconds.
-/

/-! ## Rust string primitives -/

/-- Characters removed by Rust `str::trim` at either end (whitespace). -/
def rustIsWhitespace (c : Char) : Bool := c.isWhitespace

/-- Trim whitespace from both ends of a character list (Rust `str::trim`). -/
def trimChars (xs : List Char) : List Char :=
  ((xs.dropWhile rustIsWhitespace).reverse.dropWhile rustIsWhitespace).reverse

/-- Rust `str::trim`. -/
def rustTrim (s : String) : String := ⟨trimChars s.data⟩

/-- Rust `str::starts_with(pat)` for a string pattern. -/
def rustStartsWith (s pat : String) : Bool := pat.data.isPrefixOf s.data

/-- Rust `str::split(sep)` for a single-character separator: splits into the
(possibly empty) substrings between occurrences of `sep`. -/
def splitOnChar (sep : Char) : List Char → List (List Char)
  | [] => [[]]
  | x :: xs =>
    let r := splitOnChar sep xs
    if x = sep then [] :: r
    else
      match r with
      | [] => [[x]]
      | y :: ys => (x :: y) :: ys

/-- Rust `str::split(sep)` lifted to `String`. -/
def rustSplit (s : String) (sep : Char) : List String :=
  (splitOnChar sep s.data).map (fun cs => ⟨cs⟩)

/-- String concatenation as used by Rust `format!("{}{}", a, b)`. -/
def rustConcat (a b : String) : String := a ++ b

/-! ## Target normalization
(`normalize_target_with_tls`, identical in `grpc_reflection.rs` lines 299-308
and `grpc_proto.rs` lines 357-366). -/

/-- Embedding of `normalize_target_with_tls`: trim the target; keep it if it
already carries an `http://` or `https://` scheme, otherwise prepend
`https://` when TLS is requested and `http://` when it is not. -/
def normalize_target_with_tls (target : String) (use_tls : Bool) : String :=
  let trimmed := rustTrim target
  if rustStartsWith trimmed "http://" || rustStartsWith trimmed "https://" then
    trimmed
  else if use_tls then
    rustConcat "https://" trimmed
  else
    rustConcat "http://" trimmed

/-! ## Service descriptors and method resolution
(`resolve_method_types` in `grpc_reflection.rs` lines 354-384; the identical
`resolve_method_types_from_pool` in `grpc_proto.rs` lines 394-424). -/

/-- A method descriptor as exposed by `prost_reflect`: its name and the full
names of its declared input and output message types. -/
structure MethodDescriptor where
  name : String
  inputFullName : String
  outputFullName : String
deriving DecidableEq

/-- A service descriptor: full (package-qualified) name plus its methods. -/
structure ServiceDescriptor where
  fullName : String
  methods : List MethodDescriptor
deriving DecidableEq

/-- A descriptor pool restricted to the data method resolution consults:
the services it owns.  `prost_reflect::DescriptorPool::get_service_by_name`
looks a service up by its full name. -/
structure DescriptorPool where
  services : List ServiceDescriptor
deriving DecidableEq

/-- `DescriptorPool::get_service_by_name`: service names in a pool are
unique, so first-match lookup models the map lookup exactly. -/
def DescriptorPool.get_service_by_name (pool : DescriptorPool) (name : String) :
    Option ServiceDescriptor :=
  pool.services.find? (fun s => s.fullName == name)

/-- Embedding of `resolve_method_types`: trim the method string, require a
leading `/`, split on `/` discarding empty segments, require exactly two
segments, then look up the service and the method and return the declared
input/output type names. -/
def resolve_method_types (pool : DescriptorPool) (full_method : String) :
    Except String (String × String) :=
  let trimmed := rustTrim full_method
  if !(rustStartsWith trimmed "/") then
    .error "fullMethod must start with '/'"
  else
    match (rustSplit trimmed '/').filter (fun p => p != "") with
    | [service_name, method_name] =>
      match pool.get_service_by_name service_name with
      | none => .error ("Service not found in descriptors: " ++ service_name)
      | some service =>
        match service.methods.find? (fun m => m.name == method_name) with
        | none => .error ("Method not found: " ++ method_name ++ " on " ++ service_name)
        | some m => .ok (m.inputFullName, m.outputFullName)
    | _ => .error "fullMethod must be in the form '/package.Service/Method'"

/-- The shape the specification demands of a full method string, following
the claim's words: exactly `/package.Service/Method`, i.e. splitting on `/`
yields an empty leading segment followed by exactly two non-empty segments. -/
def hasExactMethodShape (s : String) : Bool :=
  match rustSplit s '/' with
  | [lead, svc, meth] => lead == "" && svc != "" && meth != ""
  | _ => false

/-- The validation `resolve_method_types` actually performs before touching
the pool: trim, require a leading `/`, split on `/`, discard empty segments,
require exactly two remaining segments (service name, method name). -/
def validateMethod (full_method : String) : Option (String × String) :=
  let trimmed := rustTrim full_method
  if rustStartsWith trimmed "/" then
    match (rustSplit trimmed '/').filter (fun p => p != "") with
    | [s, m] => some (s, m)
    | _ => none
  else none

/-- A pool with one service used to exercise method resolution concretely. -/
def demoPool : DescriptorPool :=
  ⟨[⟨"pkg.Svc", [⟨"Method", "pkg.In", "pkg.Out"⟩]⟩]⟩

/-! ## JSON values
(`serde_json::Value`).  `serde_json` numbers distinguish integers from
floating-point values; only the integral float `0.0` ever arises here, so a
float is carried as its integral value. -/

/-- A `serde_json` number: an integer, or an f64 holding an integral value. -/
inductive JNumber where
  | int (i : Int)
  | float (i : Int)
deriving DecidableEq

/-- A `serde_json::Value`.  Modelled from the spec: objects preserve
insertion order ("walks fields in descriptor order", §4.4/§4.6) — the Cargo
manifest that selects the ordered map implementation of `serde_json::Map` is
not part of the sources under inspection. -/
inductive Json where
  | null
  | bool (b : Bool)
  | num (n : JNumber)
  | str (s : String)
  | arr (elements : List Json)
  | obj (entries : List (String × Json))

/-- Look a key up in a JSON object (`None` on non-objects). -/
def Json.lookupKey : Json → String → Option Json
  | .obj entries, k => entries.lookup k
  | _, _ => none

/-- `serde_json::Map::insert`: replace in place when the key is present,
append otherwise. -/
def mapInsert (m : List (String × Json)) (k : String) (v : Json) :
    List (String × Json) :=
  if m.any (fun kv => kv.1 == k) then
    m.map (fun kv => if kv.1 == k then (k, v) else kv)
  else
    m ++ [(k, v)]

/-! ## Message descriptors and the skeleton generator
(`generate_message_skeleton` / `generate_field_skeleton`, identical in
`grpc_reflection.rs` lines 425-467 and `grpc_proto.rs` lines 467-509). -/

/-- One declared value of an enum descriptor. -/
structure EnumValueDescriptor where
  name : String
deriving DecidableEq

/-- An enum descriptor: its declared values in declaration order. -/
structure EnumDescriptor where
  values : List EnumValueDescriptor
deriving DecidableEq

mutual
/-- `prost_reflect::Kind`: the wire kind of a field. -/
inductive FieldKind where
  | double | float | int32 | sint32 | sfixed32 | int64 | sint64 | sfixed64
  | uint32 | fixed32 | uint64 | fixed64 | bool | string | bytes
  | message (m : MessageDescriptor)
  | enum (e : EnumDescriptor)

/-- A field descriptor: name, the `is_list` / `is_map` flags and the kind. -/
inductive FieldDescriptor where
  | mk (name : String) (is_list : Bool) (is_map : Bool) (kind : FieldKind)

/-- A message descriptor: full name and fields in declaration order. -/
inductive MessageDescriptor where
  | mk (fullName : String) (fields : List FieldDescriptor)
end

/-- Field name. -/
def FieldDescriptor.name : FieldDescriptor → String
  | .mk n _ _ _ => n

/-- `FieldDescriptor::is_list`. -/
def FieldDescriptor.is_list : FieldDescriptor → Bool
  | .mk _ l _ _ => l

/-- `FieldDescriptor::is_map`. -/
def FieldDescriptor.is_map : FieldDescriptor → Bool
  | .mk _ _ m _ => m

/-- `FieldDescriptor::kind`. -/
def FieldDescriptor.kind : FieldDescriptor → FieldKind
  | .mk _ _ _ k => k

/-- Message full name. -/
def MessageDescriptor.fullName : MessageDescriptor → String
  | .mk n _ => n

/-- Message fields in declaration order. -/
def MessageDescriptor.fields : MessageDescriptor → List FieldDescriptor
  | .mk _ fs => fs

mutual
/-- Embedding of `generate_message_skeleton`: fold the fields in declaration
order into a JSON object, wrapping list fields in a one-element array and
map fields as the single entry `{"key": "value"}`. -/
def generate_message_skeleton : MessageDescriptor → Json
  | .mk _ fields => Json.obj (skeletonEntries fields [])

/-- The loop body of `generate_message_skeleton`: insert one entry per field
into the accumulating object. -/
def skeletonEntries : List FieldDescriptor → List (String × Json) → List (String × Json)
  | [], acc => acc
  | f :: rest, acc =>
    let fv := generate_field_skeleton f
    let acc' :=
      if f.is_list then mapInsert acc f.name (Json.arr [fv])
      else if f.is_map then
        mapInsert acc f.name (Json.obj [("key", Json.str "value")])
      else mapInsert acc f.name fv
    skeletonEntries rest acc'

/-- Embedding of `generate_field_skeleton`: the zero-valued placeholder for
one field, by kind. -/
def generate_field_skeleton : FieldDescriptor → Json
  | .mk _ _ _ k =>
    match k with
    | .double | .float => Json.num (JNumber.float 0)
    | .int32 | .sint32 | .sfixed32 => Json.num (JNumber.int 0)
    | .int64 | .sint64 | .sfixed64 => Json.num (JNumber.int 0)
    | .uint32 | .fixed32 => Json.num (JNumber.int 0)
    | .uint64 | .fixed64 => Json.num (JNumber.int 0)
    | .bool => Json.bool false
    | .string => Json.str ""
    | .bytes => Json.str ""
    | .message m => generate_message_skeleton m
    | .enum e =>
      match e.values with
      | v :: _ => Json.str v.name
      | [] => Json.num (JNumber.int 0)
end

/-- The per-field entry value described by the specification of the skeleton
generator: list fields become a one-element array of the field skeleton, map
fields the single `{"key": "value"}` object, everything else the field
skeleton itself. -/
def skeletonValue (f : FieldDescriptor) : Json :=
  if f.is_list then Json.arr [generate_field_skeleton f]
  else if f.is_map then Json.obj [("key", Json.str "value")]
  else generate_field_skeleton f

/-- A two-field message descriptor used to exercise the skeleton generator
concretely. -/
def demoMsg : MessageDescriptor :=
  .mk "demo.Msg" [.mk "id" false false .int32, .mk "tags" true false .string]

/-! ## Dynamic messages and the response decoder
(`DynamicMessageDecoder::decode`, identical in `grpc_reflection.rs` lines
579-593 and `grpc_proto.rs` lines 569-589). -/

/-- A `prost_reflect::DynamicMessage`: the descriptor it was allocated for,
plus its field contents. -/
structure DynamicMessage where
  desc : MessageDescriptor
  entries : List (String × Json)

/-- `DynamicMessage::new(desc)`: a freshly allocated, empty message of the
given descriptor. -/
def DynamicMessage.new (desc : MessageDescriptor) : DynamicMessage :=
  ⟨desc, []⟩

/-- A `tonic::Status`: numeric code plus message. -/
structure GrpcStatus where
  code : Int
  message : String
deriving DecidableEq

/-- `tonic::Status::internal` (gRPC code 13). -/
def GrpcStatus.internal (m : String) : GrpcStatus := ⟨13, m⟩

/-- `tonic::Code::DeadlineExceeded as i32` (gRPC code 4). -/
def tonicCodeDeadlineExceeded : Int := 4

/-- Embedding of `DynamicMessageDecoder::decode`, parameterized by the
`prost` merge routine: an empty remaining buffer yields no message;
otherwise the whole byte range is merged into a freshly allocated message of
the decoder's target descriptor, any merge failure becoming an internal
status error. -/
def DynamicMessageDecoder.decode
    (merge : DynamicMessage → List Nat → Except String DynamicMessage)
    (desc : MessageDescriptor) (src : List Nat) :
    Except GrpcStatus (Option DynamicMessage) :=
  if src.length = 0 then
    .ok none
  else
    match merge (DynamicMessage.new desc) src with
    | .ok m => .ok (some m)
    | .error e => .error (GrpcStatus.internal ("decode error: " ++ e))

/-! ## The unary-call result envelope
(`grpc_invoke_unary` lines 88-125 of `grpc_reflection.rs`; the identical
tail of `grpc_proto_invoke_unary` lines 209-247 of `grpc_proto.rs`). -/

/-- The outcome of the awaited unary call: a response carrying response
metadata and the wire message, or a `tonic::Status` error with code, message
and detail bytes. -/
inductive CallResult where
  | ok (headers : List (String × Json)) (msg : DynamicMessage)
  | err (code : Int) (message : String) (details : List Nat)

/-- `status.details()` rendered into JSON by the `serde_json::json!` macro:
a byte array becomes an array of numbers. -/
def detailsToJson (details : List Nat) : Json :=
  Json.arr (details.map (fun b => Json.num (JNumber.int b)))

/-- The envelope construction of `grpc_invoke_unary`'s final `match`,
parameterized by `dynamic_message_to_json` (`dec`): a successful response is
decoded (a decode failure failing the whole command) and wrapped with
`success = true`, status `0`, the response metadata and empty trailers; a
status error is wrapped with `success = false`, its code, message and
details. -/
def mkEnvelope (dec : DynamicMessage → Except String Json) (r : CallResult) :
    Except String Json :=
  match r with
  | .ok headers msg =>
    match dec msg with
    | .error e => .error e
    | .ok data =>
      .ok (Json.obj
        [("success", Json.bool true), ("data", data),
         ("status", Json.num (JNumber.int 0)), ("statusMessage", Json.str "OK"),
         ("headers", Json.obj headers), ("trailers", Json.obj [])])
  | .err code message details =>
    .ok (Json.obj
      [("success", Json.bool false), ("status", Json.num (JNumber.int code)),
       ("statusMessage", Json.str message), ("details", detailsToJson details)])

/-- The synthetic envelope returned when the deadline timer wins the race. -/
def deadlineEnvelope : Json :=
  Json.obj
    [("success", Json.bool false),
     ("status", Json.num (JNumber.int tonicCodeDeadlineExceeded)),
     ("statusMessage", Json.str "deadline exceeded")]

/-- The deadline race and envelope construction of `grpc_invoke_unary`:
with a deadline of `ms` milliseconds, a call that takes `call_duration_ms`
loses the `tokio::time::timeout` race exactly when the deadline elapses
first, in which case the synthetic deadline envelope is returned as a
successful command result and the call's own outcome is discarded; otherwise
(and always when no deadline is supplied) the outcome is wrapped by
`mkEnvelope`. -/
def grpc_invoke_unary_response (dec : DynamicMessage → Except String Json)
    (deadline_ms : Option Nat) (call_duration_ms : Nat) (r : CallResult) :
    Except String Json :=
  match deadline_ms with
  | some ms =>
    if ms < call_duration_ms then .ok deadlineEnvelope
    else mkEnvelope dec r
  | none => mkEnvelope dec r

/-! ## Reflection closure assembly
(`build_descriptor_pool_for_method_with_tls` lines 477-525 and
`queue_descriptor` lines 595-605 of `grpc_reflection.rs`).  The reflection
server is modelled as a function from requested file name to the file
descriptors it returns; the initial `file_containing_symbol` response is an
explicit list. -/

/-- `prost_types::FileDescriptorProto` restricted to what the dependency
walk reads: the optional file name and the declared dependency names. -/
structure FileDescriptorProto where
  name : Option String
  dependency : List String
deriving DecidableEq

/-- Embedding of `queue_descriptor`: a named file is appended to the
collected list exactly when its name was not seen before (the name is then
recorded); an unnamed file is dropped. -/
def queue_descriptor (st : List FileDescriptorProto × Finset String)
    (fd : FileDescriptorProto) : List FileDescriptorProto × Finset String :=
  match fd.name with
  | none => st
  | some n => if n ∈ st.2 then st else (st.1 ++ [fd], insert n st.2)

/-- Queue every file of one server response in order. -/
def queueAll (st : List FileDescriptorProto × Finset String)
    (fds : List FileDescriptorProto) : List FileDescriptorProto × Finset String :=
  fds.foldl queue_descriptor st

/-- The inner dependency loop: for each declared dependency name not yet
seen, request it from the server (`file_by_filename`) and queue every
returned file. -/
def processDeps (server : String → List FileDescriptorProto)
    (st : List FileDescriptorProto × Finset String) (deps : List String) :
    List FileDescriptorProto × Finset String :=
  deps.foldl (fun st dep => if dep ∈ st.2 then st else queueAll st (server dep)) st

/-- The outer dependency walk of `build_descriptor_pool_for_method_with_tls`:
starting from index `idx`, process the declared dependencies of each
collected file in turn until the index reaches the end of the (growing)
collected list.  `fuel` bounds the number of outer iterations so the
function is total; `none` means the fuel ran out before the walk finished. -/
def buildLoop (server : String → List FileDescriptorProto) :
    Nat → List FileDescriptorProto × Finset String → Nat →
    Option (List FileDescriptorProto)
  | 0, st, idx => if idx < st.1.length then none else some st.1
  | fuel + 1, st, idx =>
    if h : idx < st.1.length then
      buildLoop server fuel
        (processDeps server st (st.1.get ⟨idx, h⟩).dependency) (idx + 1)
    else
      some st.1

/-- The collection phase of `build_descriptor_pool_for_method_with_tls`:
queue the initial `file_containing_symbol` response into an empty state,
then run the dependency walk. -/
def build_descriptor_pool_files (server : String → List FileDescriptorProto)
    (initial : List FileDescriptorProto) (fuel : Nat) :
    Option (List FileDescriptorProto) :=
  buildLoop server fuel (queueAll ([], ∅) initial) 0

/-- The names of the collected files, in collection order. -/
def collectedNames (c : List FileDescriptorProto) : List String :=
  c.filterMap FileDescriptorProto.name

/-- Invariant of the dependency walk: collected file names are distinct, all
recorded in the seen set, the seen set stays inside the name universe `U`,
and only named files are ever collected. -/
def StInv (U : Finset String) (st : List FileDescriptorProto × Finset String) : Prop :=
  (collectedNames st.1).Nodup ∧
  (∀ n ∈ collectedNames st.1, n ∈ st.2) ∧
  st.2 ⊆ U ∧
  (∀ fd ∈ st.1, fd.name ≠ none)

/-- The server only ever returns files whose names lie in the universe `U`
(a reflection server serves a fixed, finite set of files). -/
def ServerNamesIn (server : String → List FileDescriptorProto) (U : Finset String) : Prop :=
  ∀ s, ∀ fd ∈ server s, ∀ n, fd.name = some n → n ∈ U

/-- A reflection server with a dependency cycle: `a.proto` declares a
dependency on `b.proto` and vice versa. -/
def cyclicServer (s : String) : List FileDescriptorProto :=
  if s = "a.proto" then [⟨some "a.proto", ["b.proto"]⟩]
  else if s = "b.proto" then [⟨some "b.proto", ["a.proto"]⟩]
  else []

/-- The name universe of `cyclicServer`. -/
def cyclicU : Finset String := {"a.proto", "b.proto"}

/-! ## Proto-source resolution and its temporary file
(`protox_parse::parse_proto_file` in `grpc_proto.rs` lines 297-339).  The
interactions with the operating system are modelled by an explicit
environment: whether the compiler binary is found, whether spawning it
succeeds, its exit status, whether it wrote the temporary descriptor-set
file, and whether reading and decoding that file succeed. -/

/-- The environment of one `parse_proto_file` execution. -/
structure ParseProtoEnv where
  protoc_found : Bool
  run_ok : Bool
  status_success : Bool
  writes_file : Bool
  read_ok : Bool
  decode_ok : Bool
deriving DecidableEq

/-- What a `parse_proto_file` execution leaves behind: its result and
whether the temporary descriptor-set file still exists when it returns. -/
structure ParseProtoOutcome where
  result : Except String Unit
  temp_file_exists : Bool

/-- Embedding of `protox_parse::parse_proto_file`'s control flow around the
temporary descriptor-set file: locate `protoc`; run it (the temporary file
exists afterwards iff the run happened and wrote it); on non-zero exit
remove the file and fail; then read the file — a read failure returns early
WITHOUT removing it (mirroring the source exactly); on a successful read
remove the file and decode. -/
def parse_proto_file (env : ParseProtoEnv) : ParseProtoOutcome :=
  if !env.protoc_found then
    ⟨.error "protoc not found. Please install Protocol Buffers compiler.", false⟩
  else
    let file_written := env.run_ok && env.writes_file
    if !env.run_ok then
      ⟨.error "Failed to run protoc", file_written⟩
    else if !env.status_success then
      ⟨.error "protoc failed", false⟩
    else if !env.read_ok then
      ⟨.error "Failed to read descriptor set", file_written⟩
    else if env.decode_ok then
      ⟨.ok (), false⟩
    else
      ⟨.error "Failed to parse descriptor set", false⟩

/-! ## Loaded-proto state and unloading
(`grpc_unload_proto` in `grpc_proto.rs` lines 261-270; `ProtoState.pools` is
a `HashMap<String, DescriptorPool>`, modelled as an association list with
unique keys, values kept abstract). -/

/-- Embedding of `grpc_unload_proto`: remove the pool registered under
`proto_path` (a no-op when none is) and return `Ok(())`. -/
def grpc_unload_proto {α : Type} (pools : List (String × α)) (proto_path : String) :
    Except String Unit × List (String × α) :=
  (.ok (), pools.filter (fun kv => kv.1 != proto_path))

/-! ## Theorems -/

/-- Claim C4: for every target string whose trimmed form has no scheme
prefix, `normalize_target_with_tls` prepends `https://` when `use_tls` is
true and `http://` when it is false; in particular `localhost:50051`
normalizes to `http://localhost:50051` under `use_tls = false` and to
`https://localhost:50051` under `use_tls = true`. -/
theorem normalize_target_prepends_scheme :
    (∀ (target : String) (use_tls : Bool),
      rustStartsWith (rustTrim target) "http://" = false →
      rustStartsWith (rustTrim target) "https://" = false →
      normalize_target_with_tls target use_tls =
        rustConcat (if use_tls then "https://" else "http://") (rustTrim target))
    ∧ normalize_target_with_tls "localhost:50051" false = "http://localhost:50051"
    ∧ normalize_target_with_tls "localhost:50051" true = "https://localhost:50051" := by
  refine ⟨?_, by decide, by decide⟩
  intro target use_tls h1 h2
  unfold normalize_target_with_tls
  simp only [h1, h2, Bool.or_self]
  cases use_tls <;> simp

/-- Witness for C4: the universally quantified part of the theorem applied
at the concrete unprefixed target `localhost:50051`. -/
theorem normalize_target_prepends_scheme_witness :
    normalize_target_with_tls "localhost:50051" true =
      rustConcat (if true then "https://" else "http://") (rustTrim "localhost:50051") :=
  normalize_target_prepends_scheme.1 "localhost:50051" true (by decide) (by decide)

/-- Claim C9: a target whose trimmed form already starts with `http://` or
`https://` is returned trimmed but otherwise unchanged, for both values of
`use_tls`; in particular requesting TLS does not rewrite an explicit
`http://` scheme to `https://`. -/
theorem normalize_target_keeps_existing_scheme :
    (∀ (target : String) (use_tls : Bool),
      (rustStartsWith (rustTrim target) "http://" = true ∨
       rustStartsWith (rustTrim target) "https://" = true) →
      normalize_target_with_tls target use_tls = rustTrim target)
    ∧ normalize_target_with_tls "http://localhost:50051" true = "http://localhost:50051" := by
  refine ⟨?_, by decide⟩
  intro target use_tls h
  unfold normalize_target_with_tls
  rcases h with h | h <;> simp [h]

/-- Witness for C9: the quantified part of the theorem applied to the
concrete target `http://localhost:50051` with TLS requested. -/
theorem normalize_target_keeps_existing_scheme_witness :
    normalize_target_with_tls "http://localhost:50051" true =
      rustTrim "http://localhost:50051" :=
  normalize_target_keeps_existing_scheme.1 "http://localhost:50051" true
    (Or.inl (by decide))

/-- Claim C10: `grpc_unload_proto` returns `Ok(())` for every path — also
when nothing is loaded under it — and modifies at most the entry keyed by
`proto_path`: lookups of every other key are unchanged, and when the key is
absent the whole map is unchanged. -/
theorem grpc_unload_proto_frame {α : Type} (pools : List (String × α))
    (proto_path : String) :
    (grpc_unload_proto pools proto_path).1 = .ok () ∧
    (∀ k, k ≠ proto_path →
      ((grpc_unload_proto pools proto_path).2).lookup k = pools.lookup k) ∧
    (pools.lookup proto_path = none →
      (grpc_unload_proto pools proto_path).2 = pools) := by
  refine ⟨rfl, ?_, ?_⟩
  · intro k hk
    simp only [grpc_unload_proto]
    induction pools with
    | nil => rfl
    | cons kv rest ih =>
      rcases kv with ⟨k', v⟩
      by_cases hkv : k' = proto_path
      · have hdrop : (((k', v).1 != proto_path) = false) := by simp [hkv]
        have hkk : (k == k') = false := by
          apply beq_eq_false_iff_ne.mpr
          intro h
          exact hk (h.trans hkv)
        rw [List.filter_cons_of_neg (by simp [hdrop])]
        rw [ih]
        simp [List.lookup, hkk]
      · have hkeep : (((k', v).1 != proto_path) = true) := by simp [bne_iff_ne, hkv]
        rw [List.filter_cons_of_pos (by simp [hkeep])]
        by_cases hkk : k = k'
        · simp [List.lookup, hkk]
        · have hkk' : (k == k') = false := beq_eq_false_iff_ne.mpr hkk
          simp only [List.lookup, hkk']
          exact ih
  · intro habs
    simp only [grpc_unload_proto]
    induction pools with
    | nil => rfl
    | cons kv rest ih =>
      rcases kv with ⟨k', v⟩
      have h1 : (proto_path == k') = false := by
        cases h : proto_path == k'
        · rfl
        · simp [List.lookup, h] at habs
      have h2 : rest.lookup proto_path = none := by
        simpa [List.lookup, h1] using habs
      have hne : ((k' != proto_path) = true) := by
        simp only [bne_iff_ne]
        intro h
        simp [h] at h1
      rw [List.filter_cons_of_pos (by simp [hne])]
      rw [ih h2]

/-- Witness for C10: unloading a path that is not loaded leaves a concrete
one-entry map untouched and still returns `Ok(())`. -/
theorem grpc_unload_proto_frame_witness :
    (grpc_unload_proto [("a.proto", 1)] "b.proto").1 = .ok () ∧
    (grpc_unload_proto [("a.proto", 1)] "b.proto").2.lookup "a.proto" =
      [("a.proto", 1)].lookup "a.proto" ∧
    (grpc_unload_proto [("a.proto", 1)] "b.proto").2 = [("a.proto", 1)] := by
  obtain ⟨h1, h2, h3⟩ := grpc_unload_proto_frame [("a.proto", 1)] "b.proto"
  exact ⟨h1, h2 "a.proto" (by decide), h3 (by decide)⟩

/-- Claim C7 (code bug exhibit): on the execution path where `protoc` is
found, runs, exits successfully and writes the temporary descriptor-set
file but reading the file back fails, `parse_proto_file` returns the read
error while the temporary file still exists — the cleanup promised on every
failure path is skipped on this one. -/
theorem parse_proto_file_leaks_temp_on_read_failure :
    (parse_proto_file ⟨true, true, true, true, false, true⟩).temp_file_exists = true ∧
    (parse_proto_file ⟨true, true, true, true, false, true⟩).result =
      .error "Failed to read descriptor set" ∧
    (parse_proto_file ⟨true, true, true, true, false, false⟩).temp_file_exists = true := by
  exact ⟨rfl, rfl, rfl⟩

/-- Claim C8: the dynamic message decoder answers "no message" exactly on an
empty remaining buffer; every non-empty buffer is merged in full into a
freshly allocated message of the target descriptor, yielding either that
message or a decode error — never "no message". -/
theorem decoder_none_iff_empty
    (merge : DynamicMessage → List Nat → Except String DynamicMessage)
    (desc : MessageDescriptor) :
    (∀ src, DynamicMessageDecoder.decode merge desc src = .ok none ↔ src = []) ∧
    (∀ src, src ≠ [] →
      DynamicMessageDecoder.decode merge desc src =
        match merge (DynamicMessage.new desc) src with
        | .ok m => .ok (some m)
        | .error e => .error (GrpcStatus.internal ("decode error: " ++ e))) := by
  constructor
  · intro src
    constructor
    · intro h
      cases src with
      | nil => rfl
      | cons b rest =>
        rw [DynamicMessageDecoder.decode] at h
        simp at h
        rcases hm : merge (DynamicMessage.new desc) (b :: rest) with e | m <;>
          simp [hm] at h
    · intro h
      subst h
      rfl
  · intro src hne
    rw [DynamicMessageDecoder.decode]
    have : src.length ≠ 0 := by
      cases src with
      | nil => exact absurd rfl hne
      | cons b rest => simp
    simp [this]

/-- Witness for C8: the decoder applied to the concrete one-byte buffer
`[0]` with a merge routine that accepts the bytes, via the theorem. -/
theorem decoder_none_iff_empty_witness :
    DynamicMessageDecoder.decode (fun m _ => .ok m) (.mk "M" []) [0] =
      match (fun (m : DynamicMessage) (_ : List Nat) =>
          (.ok m : Except String DynamicMessage)) (DynamicMessage.new (.mk "M" [])) [0] with
      | .ok m => .ok (some m)
      | .error e => .error (GrpcStatus.internal ("decode error: " ++ e)) :=
  (decoder_none_iff_empty (fun m _ => .ok m) (.mk "M" [])).2 [0] (by decide)

/-- Claim C3: when a deadline is supplied and the unary call does not
complete within it, `grpc_invoke_unary` still returns (it does not error)
the synthetic deadline envelope, with `success = false` and status equal to
`tonic::Code::DeadlineExceeded`; the call outcome is discarded and the
result does not depend on it (no retry). -/
theorem grpc_invoke_unary_deadline_exceeded
    (dec dec' : DynamicMessage → Except String Json) (ms t : Nat)
    (r r' : CallResult) (h : ms < t) :
    grpc_invoke_unary_response dec (some ms) t r = .ok deadlineEnvelope ∧
    grpc_invoke_unary_response dec (some ms) t r =
      grpc_invoke_unary_response dec' (some ms) t r' ∧
    deadlineEnvelope.lookupKey "success" = some (Json.bool false) ∧
    deadlineEnvelope.lookupKey "status" =
      some (Json.num (JNumber.int tonicCodeDeadlineExceeded)) := by
  refine ⟨?_, ?_, by rfl, by rfl⟩
  · simp [grpc_invoke_unary_response, h]
  · simp [grpc_invoke_unary_response, h]

/-- Witness for C3: a call that needs 51ms against a 50ms deadline, with a
concrete decoder and concrete outcomes, via the theorem. -/
theorem grpc_invoke_unary_deadline_exceeded_witness :
    grpc_invoke_unary_response (fun _ => .ok Json.null) (some 50) 51
      (CallResult.err 13 "late" []) = .ok deadlineEnvelope :=
  (grpc_invoke_unary_deadline_exceeded (fun _ => .ok Json.null)
    (fun _ => .ok Json.null) 50 51 (CallResult.err 13 "late" [])
    (CallResult.err 13 "late" []) (by decide)).1

/-- Claim C5 (counterexample): the envelope built for a status error —
a completed invocation with an error status — carries no `headers` key at
all, refuting the claim that every completed envelope contains a headers
JSON object. -/
theorem envelope_error_lacks_headers :
    mkEnvelope (fun _ => .ok Json.null) (CallResult.err 13 "boom" []) =
      .ok (Json.obj
        [("success", Json.bool false), ("status", Json.num (JNumber.int 13)),
         ("statusMessage", Json.str "boom"), ("details", Json.arr [])]) ∧
    (Json.obj
        [("success", Json.bool false), ("status", Json.num (JNumber.int 13)),
         ("statusMessage", Json.str "boom"),
         ("details", Json.arr [])]).lookupKey "headers" = none := by
  exact ⟨rfl, rfl⟩

/-- Claim C5 as amended: every completed invocation yields an envelope with
`success`, a numeric `status` and a `statusMessage` string; `success` is
`true` exactly on the no-error outcome, in which case status is `0`, `data`
holds the decoded body and the `headers` object is present; on an error
status the envelope instead carries the error code, message and `details`,
and no `headers` key. -/
theorem mkEnvelope_amended (dec : DynamicMessage → Except String Json)
    (r : CallResult) (env : Json) (h : mkEnvelope dec r = .ok env) :
    (∃ b, env.lookupKey "success" = some (Json.bool b)) ∧
    (∃ n, env.lookupKey "status" = some (Json.num (JNumber.int n))) ∧
    (∃ s, env.lookupKey "statusMessage" = some (Json.str s)) ∧
    (match r with
     | .ok headers msg =>
       env.lookupKey "success" = some (Json.bool true) ∧
       env.lookupKey "status" = some (Json.num (JNumber.int 0)) ∧
       env.lookupKey "statusMessage" = some (Json.str "OK") ∧
       env.lookupKey "headers" = some (Json.obj headers) ∧
       ∃ data, dec msg = .ok data ∧ env.lookupKey "data" = some data
     | .err code message details =>
       env.lookupKey "success" = some (Json.bool false) ∧
       env.lookupKey "status" = some (Json.num (JNumber.int code)) ∧
       env.lookupKey "statusMessage" = some (Json.str message) ∧
       env.lookupKey "details" = some (detailsToJson details) ∧
       env.lookupKey "headers" = none) := by
  cases r with
  | ok headers msg =>
    rcases hd : dec msg with e | data
    · rw [mkEnvelope, hd] at h
      exact absurd h (by simp)
    · rw [mkEnvelope, hd] at h
      injection h with h
      subst h
      refine ⟨⟨true, rfl⟩, ⟨0, rfl⟩, ⟨"OK", rfl⟩, rfl, rfl, rfl, rfl, data, hd, rfl⟩
  | err code message details =>
    rw [mkEnvelope] at h
    injection h with h
    subst h
    exact ⟨⟨false, rfl⟩, ⟨code, rfl⟩, ⟨message, rfl⟩, rfl, rfl, rfl, rfl, rfl⟩

/-- Claim C2 (counterexample): `/pkg.Svc/Method/` does not have exactly the
shape `/package.Service/Method` (it carries a trailing slash), yet
`resolve_method_types` accepts it and performs the lookup successfully
instead of rejecting it as a validation error. -/
theorem resolve_method_types_accepts_nonexact_shape :
    hasExactMethodShape "/pkg.Svc/Method/" = false ∧
    resolve_method_types demoPool "/pkg.Svc/Method/" = .ok ("pkg.In", "pkg.Out") :=
  ⟨by decide, rfl⟩

/-- Claim C2 as amended: `resolve_method_types` trims the method string and
validates it — a leading `/` and exactly two non-empty `/`-separated
segments — before any pool access: when validation fails the result is a
validation error that is identical for every pool; when validation yields a
service and method name and both lookups succeed, the declared input and
output type names are returned exactly. -/
theorem resolve_method_types_amended (pool pool2 : DescriptorPool) (fm : String) :
    (validateMethod fm = none →
      ∃ e, resolve_method_types pool fm = .error e ∧
        resolve_method_types pool2 fm = .error e) ∧
    (∀ s m svc meth, validateMethod fm = some (s, m) →
      pool.get_service_by_name s = some svc →
      svc.methods.find? (fun md => md.name == m) = some meth →
      resolve_method_types pool fm = .ok (meth.inputFullName, meth.outputFullName)) := by
  constructor
  · intro hv
    cases hs : rustStartsWith (rustTrim fm) "/" with
    | false =>
      exact ⟨"fullMethod must start with '/'", by simp [resolve_method_types, hs],
        by simp [resolve_method_types, hs]⟩
    | true =>
      rcases hp : (rustSplit (rustTrim fm) '/').filter (fun p => p != "") with
        _ | ⟨a, _ | ⟨b, rest⟩⟩
      · exact ⟨"fullMethod must be in the form '/package.Service/Method'",
          by simp [resolve_method_types, hs, hp], by simp [resolve_method_types, hs, hp]⟩
      · exact ⟨"fullMethod must be in the form '/package.Service/Method'",
          by simp [resolve_method_types, hs, hp], by simp [resolve_method_types, hs, hp]⟩
      · cases rest with
        | nil => simp [validateMethod, hs, hp] at hv
        | cons c rest' =>
          exact ⟨"fullMethod must be in the form '/package.Service/Method'",
            by simp [resolve_method_types, hs, hp], by simp [resolve_method_types, hs, hp]⟩
  · intro s m svc meth hv hsvc hmeth
    cases hs : rustStartsWith (rustTrim fm) "/" with
    | false => simp [validateMethod, hs] at hv
    | true =>
      rcases hp : (rustSplit (rustTrim fm) '/').filter (fun p => p != "") with
        _ | ⟨a, _ | ⟨b, rest⟩⟩
      · simp [validateMethod, hs, hp] at hv
      · simp [validateMethod, hs, hp] at hv
      · cases rest with
        | cons c rest' => simp [validateMethod, hs, hp] at hv
        | nil =>
          have hab : a = s ∧ b = m := by simpa [validateMethod, hs, hp] using hv
          obtain ⟨ha, hb⟩ := hab
          subst ha
          subst hb
          simp [resolve_method_types, hs, hp, hsvc, hmeth]

/-- Witness for C2's amended theorem: resolving `/pkg.Svc/Method` against
the one-service demo pool returns the declared type names. -/
theorem resolve_method_types_amended_witness :
    resolve_method_types demoPool "/pkg.Svc/Method" =
      .ok ("pkg.In", "pkg.Out") :=
  (resolve_method_types_amended demoPool demoPool "/pkg.Svc/Method").2
    "pkg.Svc" "Method" ⟨"pkg.Svc", [⟨"Method", "pkg.In", "pkg.Out"⟩]⟩
    ⟨"Method", "pkg.In", "pkg.Out"⟩ (by decide) (by decide) (by decide)

/-- Inserting a key absent from a `serde_json::Map` appends the entry. -/
theorem mapInsert_fresh (acc : List (String × Json)) (k : String) (v : Json)
    (h : ∀ kv ∈ acc, kv.1 ≠ k) : mapInsert acc k v = acc ++ [(k, v)] := by
  rw [mapInsert]
  have : acc.any (fun kv => kv.1 == k) = false := by
    simp only [List.any_eq_false]
    intro kv hkv
    simp [h kv hkv]
  simp [this]

/-- The skeleton generator's fold over fields with pairwise-distinct names
appends exactly one entry per field, in declaration order. -/
theorem skeletonEntries_append : ∀ (fs : List FieldDescriptor) (acc : List (String × Json)),
    (fs.map FieldDescriptor.name).Nodup →
    (∀ f ∈ fs, ∀ kv ∈ acc, kv.1 ≠ f.name) →
    skeletonEntries fs acc = acc ++ fs.map (fun f => (f.name, skeletonValue f))
  | [], acc, _, _ => by simp [skeletonEntries]
  | f :: rest, acc, hnodup, hfresh => by
    rw [skeletonEntries]
    have hfr : ∀ kv ∈ acc, kv.1 ≠ f.name := fun kv hkv => hfresh f (by simp) kv hkv
    have hacc' : (if f.is_list then mapInsert acc f.name (Json.arr [generate_field_skeleton f])
        else if f.is_map then mapInsert acc f.name (Json.obj [("key", Json.str "value")])
        else mapInsert acc f.name (generate_field_skeleton f)) =
        acc ++ [(f.name, skeletonValue f)] := by
      rw [skeletonValue]
      by_cases hl : f.is_list = true
      · simp only [hl, if_true]
        exact mapInsert_fresh acc f.name _ hfr
      · simp only [hl, if_false, Bool.not_eq_true] at *
        by_cases hm : f.is_map = true
        · simp only [hl, hm, if_true, if_false, Bool.false_eq_true]
          exact mapInsert_fresh acc f.name _ hfr
        · simp only [Bool.not_eq_true] at hm
          simp only [hl, hm, Bool.false_eq_true, if_false]
          exact mapInsert_fresh acc f.name _ hfr
    rw [hacc']
    have hnd : (rest.map FieldDescriptor.name).Nodup := (List.nodup_cons.mp hnodup).2
    have hni : f.name ∉ rest.map FieldDescriptor.name := (List.nodup_cons.mp hnodup).1
    have hfresh' : ∀ g ∈ rest, ∀ kv ∈ acc ++ [(f.name, skeletonValue f)], kv.1 ≠ g.name := by
      intro g hg kv hkv
      rcases List.mem_append.mp hkv with h | h
      · exact hfresh g (by simp [hg]) kv h
      · simp at h
        subst h
        simp only [ne_eq]
        intro heq
        exact hni (heq ▸ List.mem_map_of_mem FieldDescriptor.name hg)
    rw [skeletonEntries_append rest _ hnd hfresh']
    simp

/-- Claim C6: on a message whose field names are distinct (as protobuf
guarantees), `generate_message_skeleton` produces a JSON object with one
entry per field in declaration order; list fields become a one-element array
holding one skeleton element, map fields the single object
`{"key": "value"}`, and otherwise the field's skeleton value, which maps
floats to `0.0`, the other numeric scalars to `0`, bool to `false`, string
and bytes to `""`, nested messages recursively and enums to the first
declared value's name. -/
theorem generate_message_skeleton_spec :
    (∀ (nm : String) (fs : List FieldDescriptor),
      (fs.map FieldDescriptor.name).Nodup →
      generate_message_skeleton (.mk nm fs) =
        Json.obj (fs.map (fun f => (f.name, skeletonValue f))))
    ∧ (∀ nm il im,
        generate_field_skeleton (.mk nm il im .double) = Json.num (JNumber.float 0) ∧
        generate_field_skeleton (.mk nm il im .float) = Json.num (JNumber.float 0) ∧
        generate_field_skeleton (.mk nm il im .int32) = Json.num (JNumber.int 0) ∧
        generate_field_skeleton (.mk nm il im .sint32) = Json.num (JNumber.int 0) ∧
        generate_field_skeleton (.mk nm il im .sfixed32) = Json.num (JNumber.int 0) ∧
        generate_field_skeleton (.mk nm il im .int64) = Json.num (JNumber.int 0) ∧
        generate_field_skeleton (.mk nm il im .sint64) = Json.num (JNumber.int 0) ∧
        generate_field_skeleton (.mk nm il im .sfixed64) = Json.num (JNumber.int 0) ∧
        generate_field_skeleton (.mk nm il im .uint32) = Json.num (JNumber.int 0) ∧
        generate_field_skeleton (.mk nm il im .fixed32) = Json.num (JNumber.int 0) ∧
        generate_field_skeleton (.mk nm il im .uint64) = Json.num (JNumber.int 0) ∧
        generate_field_skeleton (.mk nm il im .fixed64) = Json.num (JNumber.int 0) ∧
        generate_field_skeleton (.mk nm il im .bool) = Json.bool false ∧
        generate_field_skeleton (.mk nm il im .string) = Json.str "" ∧
        generate_field_skeleton (.mk nm il im .bytes) = Json.str "" ∧
        (∀ m, generate_field_skeleton (.mk nm il im (.message m)) =
          generate_message_skeleton m) ∧
        (∀ v vrest, generate_field_skeleton (.mk nm il im (.enum ⟨v :: vrest⟩)) =
          Json.str v.name))
    ∧ (∀ f, f.is_list = true → skeletonValue f = Json.arr [generate_field_skeleton f])
    ∧ (∀ f, f.is_list = false → f.is_map = true →
        skeletonValue f = Json.obj [("key", Json.str "value")])
    ∧ (∀ f, f.is_list = false → f.is_map = false →
        skeletonValue f = generate_field_skeleton f) := by
  refine ⟨?_, ?_, ?_, ?_, ?_⟩
  · intro nm fs hnodup
    rw [generate_message_skeleton]
    rw [skeletonEntries_append fs [] hnodup (by simp)]
    simp
  · intro nm il im
    refine ⟨?_, ?_, ?_, ?_, ?_, ?_, ?_, ?_, ?_, ?_, ?_, ?_, ?_, ?_, ?_, ?_, ?_⟩ <;>
      first
        | rfl
        | (intro m; rw [generate_field_skeleton])
        | (intro v vrest; rw [generate_field_skeleton])
  · intro f hl
    simp [skeletonValue, hl]
  · intro f hl hm
    simp [skeletonValue, hl, hm]
  · intro f hl hm
    simp [skeletonValue, hl, hm]

/-- Witness for C6: the skeleton of the concrete two-field demo message, via
the theorem. -/
theorem generate_message_skeleton_spec_witness :
    generate_message_skeleton demoMsg =
      Json.obj [("id", skeletonValue (.mk "id" false false .int32)),
        ("tags", skeletonValue (.mk "tags" true false .string))] :=
  generate_message_skeleton_spec.1 "demo.Msg"
    [.mk "id" false false .int32, .mk "tags" true false .string] (by decide)

/-- `queue_descriptor` preserves the dependency-walk invariant when the
queued file's name (if any) lies in the name universe. -/
theorem queue_descriptor_inv {U : Finset String}
    {st : List FileDescriptorProto × Finset String} {fd : FileDescriptorProto}
    (h : StInv U st) (hfd : ∀ n, fd.name = some n → n ∈ U) :
    StInv U (queue_descriptor st fd) := by
  obtain ⟨c, seen⟩ := st
  unfold StInv at h ⊢
  obtain ⟨hnodup, hsub, hUsub, hnamed⟩ := h
  rw [queue_descriptor]
  cases hn : fd.name with
  | none => exact ⟨hnodup, hsub, hUsub, hnamed⟩
  | some n =>
    by_cases hmem : n ∈ seen
    · simp only [hmem, if_true]
      exact ⟨hnodup, hsub, hUsub, hnamed⟩
    · simp only [hmem, if_false]
      have hnames : collectedNames (c ++ [fd]) = collectedNames c ++ [n] := by
        simp [collectedNames, List.filterMap_append, hn]
      refine ⟨?_, ?_, ?_, ?_⟩
      · rw [hnames]
        refine List.Nodup.append hnodup (List.nodup_singleton n) ?_
        intro x hx hx'
        simp at hx'
        subst hx'
        exact hmem (hsub x hx)
      · intro x hx
        rw [hnames] at hx
        rcases List.mem_append.mp hx with hx | hx
        · exact Finset.mem_insert_of_mem (hsub x hx)
        · simp at hx
          subst hx
          exact Finset.mem_insert_self x seen
      · refine Finset.insert_subset ?_ hUsub
        exact hfd n hn
      · intro g hg
        rcases List.mem_append.mp hg with hg | hg
        · exact hnamed g hg
        · simp at hg
          subst hg
          simp [hn]

/-- Queueing a whole server response preserves the invariant. -/
theorem queueAll_inv {U : Finset String} :
    ∀ (fds : List FileDescriptorProto) (st : List FileDescriptorProto × Finset String),
    StInv U st → (∀ fd ∈ fds, ∀ n, fd.name = some n → n ∈ U) →
    StInv U (queueAll st fds)
  | [], st, h, _ => h
  | fd :: fds, st, h, hfds => by
    have h1 : StInv U (queue_descriptor st fd) :=
      queue_descriptor_inv h (hfds fd (by simp))
    have h2 : ∀ g ∈ fds, ∀ n, g.name = some n → n ∈ U :=
      fun g hg => hfds g (by simp [hg])
    simpa [queueAll, List.foldl] using
      queueAll_inv fds (queue_descriptor st fd) h1 h2

/-- Processing the declared dependencies of one file preserves the
invariant, given that the server only serves names of the universe. -/
theorem processDeps_inv {U : Finset String} {server : String → List FileDescriptorProto}
    (hs : ServerNamesIn server U) :
    ∀ (deps : List String) (st : List FileDescriptorProto × Finset String),
    StInv U st → StInv U (processDeps server st deps)
  | [], _, h => h
  | dep :: deps, st, h => by
    by_cases hmem : dep ∈ st.2
    · have : processDeps server st (dep :: deps) = processDeps server st deps := by
        simp [processDeps, List.foldl, hmem]
      rw [this]
      exact processDeps_inv hs deps st h
    · have : processDeps server st (dep :: deps) =
          processDeps server (queueAll st (server dep)) deps := by
        simp [processDeps, List.foldl, hmem]
      rw [this]
      exact processDeps_inv hs deps _ (queueAll_inv (server dep) st h (hs dep))

/-- A collected list containing only named files has as many names as
files. -/
theorem collectedNames_length :
    ∀ (c : List FileDescriptorProto), (∀ fd ∈ c, fd.name ≠ none) →
    (collectedNames c).length = c.length
  | [], _ => rfl
  | fd :: c, h => by
    cases hn : fd.name with
    | none => exact absurd hn (h fd (by simp))
    | some n =>
      have : collectedNames (fd :: c) = n :: collectedNames c := by
        simp [collectedNames, hn]
      rw [this]
      simp only [List.length_cons]
      rw [collectedNames_length c (fun g hg => h g (by simp [hg]))]

/-- Under the invariant the collected list can never exceed the size of the
name universe: collected names are distinct and all drawn from `U`. -/
theorem collected_length_le {U : Finset String}
    {st : List FileDescriptorProto × Finset String} (h : StInv U st) :
    st.1.length ≤ U.card := by
  unfold StInv at h
  obtain ⟨hnodup, hsub, hUsub, hnamed⟩ := h
  have h1 : (collectedNames st.1).length = st.1.length := collectedNames_length _ hnamed
  have h2 : (collectedNames st.1).toFinset.card = (collectedNames st.1).length :=
    List.toFinset_card_of_nodup hnodup
  have h3 : (collectedNames st.1).toFinset ⊆ U := by
    intro x hx
    exact hUsub (hsub x (List.mem_toFinset.mp hx))
  calc st.1.length = (collectedNames st.1).toFinset.card := by rw [h2, h1]
    _ ≤ U.card := Finset.card_le_card h3

/-- With at least `U.card - idx` units of fuel the dependency walk reaches
the end of the collected list and returns it, names distinct. -/
theorem buildLoop_total {U : Finset String} {server : String → List FileDescriptorProto}
    (hs : ServerNamesIn server U) :
    ∀ (fuel : Nat) (st : List FileDescriptorProto × Finset String) (idx : Nat),
    StInv U st → U.card ≤ idx + fuel →
    ∃ c, buildLoop server fuel st idx = some c ∧ (collectedNames c).Nodup := by
  intro fuel
  induction fuel with
  | zero =>
    intro st idx hinv hcard
    have hlen := collected_length_le hinv
    have hnl : ¬ idx < st.1.length := by omega
    refine ⟨st.1, ?_, ?_⟩
    · simp [buildLoop, hnl]
    · exact hinv.1
  | succ fuel ih =>
    intro st idx hinv hcard
    by_cases h : idx < st.1.length
    · rw [buildLoop, dif_pos h]
      exact ih _ _ (processDeps_inv hs _ _ hinv) (by omega)
    · rw [buildLoop, dif_neg h]
      exact ⟨st.1, rfl, hinv.1⟩

/-- Claim C1: for every reflection server serving files from a finite name
universe `U` and every initial `file_containing_symbol` response, the
dependency walk of `build_descriptor_pool_for_method_with_tls` terminates
within `U.card` outer iterations — also when the declared dependency names
form a cycle — and the collected list never contains two files with the
same name (each file is ingested at most once per resolution session). -/
theorem build_descriptor_pool_nodup_and_terminates
    (server : String → List FileDescriptorProto) (U : Finset String)
    (initial : List FileDescriptorProto)
    (hserver : ServerNamesIn server U)
    (hinit : ∀ fd ∈ initial, ∀ n, fd.name = some n → n ∈ U) :
    ∃ c, build_descriptor_pool_files server initial U.card = some c ∧
      (collectedNames c).Nodup := by
  have hinv0 : StInv U ([], ∅) := by
    refine ⟨List.nodup_nil, ?_, ?_, ?_⟩ <;> simp [collectedNames]
  have hinv : StInv U (queueAll ([], ∅) initial) :=
    queueAll_inv initial ([], ∅) hinv0 hinit
  exact buildLoop_total hserver U.card _ 0 hinv (by omega)

/-- Witness for C1: the concrete two-file server whose dependency
declarations form a cycle (`a.proto` ↔ `b.proto`), resolved from the
response for `a.proto`, via the theorem. -/
theorem build_descriptor_pool_nodup_and_terminates_witness :
    ∃ c, build_descriptor_pool_files cyclicServer (cyclicServer "a.proto")
        cyclicU.card = some c ∧ (collectedNames c).Nodup := by
  apply build_descriptor_pool_nodup_and_terminates cyclicServer cyclicU
  · intro s fd hfd n hn
    unfold cyclicServer at hfd
    split_ifs at hfd with h1 h2
    · simp at hfd
      subst hfd
      simp at hn
      subst hn
      decide
    · simp at hfd
      subst hfd
      simp at hn
      subst hn
      decide
    · simp at hfd
  · intro fd hfd n hn
    have : cyclicServer "a.proto" = [⟨some "a.proto", ["b.proto"]⟩] := by
      unfold cyclicServer
      simp
    rw [this] at hfd
    simp at hfd
    subst hfd
    simp at hn
    subst hn
    decide

/-- Witness for C5's amended theorem: the envelope of a concrete completed
error outcome carries `success = false`, via the theorem. -/
theorem mkEnvelope_amended_witness :
    (Json.obj
      [("success", Json.bool false), ("status", Json.num (JNumber.int 13)),
       ("statusMessage", Json.str "boom"),
       ("details", Json.arr [])]).lookupKey "success" = some (Json.bool false) :=
  (mkEnvelope_amended (fun _ => .ok Json.null) (CallResult.err 13 "boom" [])
    (Json.obj
      [("success", Json.bool false), ("status", Json.num (JNumber.int 13)),
       ("statusMessage", Json.str "boom"), ("details", Json.arr [])]) rfl).2.2.2.1
